import Mathlib

/-!
Verification development for the NEMU simple debugger shell
(`src/nemu/src/monitor/sdb/sdb.c`): the command dispatch engine and the
watchpoint lifecycle manager, shallowly embedded in Lean.

Modelling conventions:
* Machine words are `Nat` reduced modulo `2^32` (`vaddr_t`/`word_t` on the
  riscv32 configuration); signed `int` values are `Int`.
* External collaborators (the register/expression subsystem
  `isa_reg_str2val` and the byte-granular memory read `vaddr_read`) are
  oracles carried in an `Env` record; calls to `cpu_exec` and
  `isa_reg_display` are recorded as traces in the shell state.
* `printf` output is recorded line-granularly in `SdbState.out`
  (one entry per completed output line, without the trailing newline).
* C undefined behavior (a `NULL` dereference, or control flow that reads an
  uninitialized variable) is modelled by a handler returning `none`, which
  the dispatcher turns into the `Crash` step result.
-/

/-- `2^32`, the modulus of `vaddr_t` / `word_t` (riscv32 configuration). -/
def two32 : Nat := 4294967296

/-- Value of a decimal digit character. -/
def decDigitVal (c : Char) : Nat := c.toNat - 48

/-- Read a maximal run of leading decimal digits (at least one required),
ignoring anything after it — the matching behavior of `sscanf("%d")` on a
single token after the sign has been consumed. -/
def readDecDigits (cs : List Char) : Option Nat :=
  let ds := cs.takeWhile (fun c => c.isDigit)
  if ds.isEmpty then none
  else some (ds.foldl (fun a c => a * 10 + decDigitVal c) 0)

/-- Model of `sscanf(tok, "%d", &n)` on a whitespace-free-or-not token:
skip leading whitespace, optional sign, then at least one decimal digit;
`none` means the conversion failed and `n` keeps its previous value
(or stays uninitialized). -/
def parseDec (tok : String) : Option Int :=
  let cs := tok.toList.dropWhile (fun c => c.isWhitespace)
  match cs with
  | [] => none
  | c :: rest =>
    if c = '-' then (readDecDigits rest).map (fun n => -(n : Int))
    else if c = '+' then (readDecDigits rest).map (fun n => (n : Int))
    else (readDecDigits cs).map (fun n => (n : Int))

/-- Hexadecimal digit test (0-9, a-f, A-F). -/
def isHexDig (c : Char) : Bool :=
  c.isDigit || (97 ≤ c.toNat && c.toNat ≤ 102) || (65 ≤ c.toNat && c.toNat ≤ 70)

/-- Value of a hexadecimal digit character. -/
def hexDigitVal (c : Char) : Nat :=
  if c.isDigit then c.toNat - 48
  else if c.toNat ≤ 70 then c.toNat - 55
  else c.toNat - 87

/-- Read a maximal run of leading hexadecimal digits (at least one required). -/
def readHexDigits (cs : List Char) : Option Nat :=
  let ds := cs.takeWhile isHexDig
  if ds.isEmpty then none
  else some (ds.foldl (fun a c => a * 16 + hexDigitVal c) 0)

/-- Model of `sscanf(tok, "%x", &addr)`: skip leading whitespace, an
optional `0x`/`0X` prefix (only when followed by a hex digit), then at
least one hexadecimal digit. -/
def parseHex (tok : String) : Option Nat :=
  let cs := tok.toList.dropWhile (fun c => c.isWhitespace)
  let cs2 :=
    match cs with
    | c0 :: c1 :: rest =>
      if c0 == '0' && (c1 == 'x' || c1 == 'X')
          && (match rest with | r :: _ => isHexDig r | [] => false)
      then rest else cs
    | _ => cs
  readHexDigits cs2

/-- Lowercase hexadecimal digit character for a value below 16. -/
def hexChar (n : Nat) : Char :=
  if n < 10 then Char.ofNat (48 + n) else Char.ofNat (87 + n)

/-- Fixed-width lowercase hexadecimal rendering (most significant first). -/
def hexFixed : Nat → Nat → List Char
  | 0, _ => []
  | k + 1, n => hexFixed k (n / 16) ++ [hexChar (n % 16)]

/-- `printf("%08x", n)` for `n < 2^32`. -/
def hex8 (n : Nat) : String := String.mk (hexFixed 8 n)

/-- `printf("%02x", n)` for `n < 256`. -/
def hex2 (n : Nat) : String := String.mk (hexFixed 2 n)

/-- `printf("%d", w)` applied to an unsigned 32-bit word: the word is
reinterpreted as a two's-complement signed 32-bit integer. -/
def i32str (w : Nat) : String :=
  if w < 2147483648 then toString w else "-" ++ toString (4294967296 - w)

/-- One watchpoint slot's payload: the stable slot number, the copied
expression text and the last evaluated value (`NO`, `expr`, `value` in the
framework's `WP` struct). -/
structure WP where
  NO : Nat
  expr : String
  value : Nat
deriving DecidableEq, Repr

/-- Modelled from the spec: the Watchpoint Store is a fixed-capacity pool
of slots with a free-index list and an active set (spec sections 3 and 9);
the implementation file (`watchpoint.c`) is not part of the visible
sources, only its callers in `sdb.c` are. -/
structure WpPool where
  freeIds : List Nat
  active : List WP
deriving DecidableEq, Repr

/-- Modelled from the spec: the pool capacity is a fixed constant (the
concrete number is immaterial to every claim; 32 is the framework's
conventional `NR_WP`). -/
def NR_WP : Nat := 32

/-- Modelled from the spec: `init_wp_pool` makes every slot free and no
slot active. -/
def init_wp_pool : WpPool :=
  { freeIds := List.range NR_WP, active := [] }

/-- Modelled from the spec: `new_wp` allocates one slot from the head of
the free list and moves it to the active set; `none` when the pool is
exhausted. -/
def new_wp (p : WpPool) : Option (Nat × WpPool) :=
  match p.freeIds with
  | [] => none
  | id :: rest =>
    some (id, { freeIds := rest, active := { NO := id, expr := "", value := 0 } :: p.active })

/-- Write through the pointer returned by `new_wp`: update the unique
active slot carrying number `id`. -/
def updateWp (p : WpPool) (id : Nat) (f : WP → WP) : WpPool :=
  { p with active := p.active.map (fun w => if w.NO = id then f w else w) }

/-- Remove the first active slot carrying number `n`, returning it and the
remaining active list. -/
def removeByNo (n : Nat) : List WP → Option (WP × List WP)
  | [] => none
  | w :: ws =>
    if w.NO = n then some (w, ws)
    else
      match removeByNo n ws with
      | none => none
      | some (x, rest) => some (x, w :: rest)

/-- Modelled from the spec: `free_wp` releases an active slot back to the
free list; releasing a slot that is not active is a no-op. -/
def free_wp (id : Nat) (p : WpPool) : WpPool :=
  match removeByNo id p.active with
  | none => p
  | some (w, rest) => { freeIds := w.NO :: p.freeIds, active := rest }

/-- Modelled from the spec: `free_wp_by_num` releases the active slot with
the given user-supplied number; a non-existent or already-released number
is a safe no-op. -/
def free_wp_by_num (n : Int) (p : WpPool) : WpPool :=
  if n < 0 then p else free_wp n.toNat p

/-- Number of currently active watchpoint slots. -/
def occupancy (p : WpPool) : Nat := p.active.length

/-- The Store's free list and active set form a consistent partition of
the slots: together, without repetition, they are exactly the `NR_WP`
slot numbers. -/
def poolInv (p : WpPool) : Prop :=
  (p.freeIds ++ p.active.map WP.NO).Perm (List.range NR_WP)

/-- The machine run state (`nemu_state.state`), external to this core;
only `NEMU_QUIT` is ever written by the shell itself. -/
inductive NemuState where
  | NEMU_RUNNING
  | NEMU_STOP
  | NEMU_QUIT
  | NEMU_ABORT
deriving DecidableEq, Repr

/-- The dispatcher's view of one processed line: continue the loop,
terminate it (a handler returned a negative value), or the process died
from undefined behavior inside a handler. -/
inductive StepResult where
  | Continue
  | Terminate
  | Crash
deriving DecidableEq, Repr

/-- External collaborators: `eval` is `isa_reg_str2val` (the expression /
register subsystem: `none` models `success = false`), `mem` is the
byte-addressable memory behind `vaddr_read`. -/
structure Env where
  eval : String → Option Nat
  mem : Nat → Nat

/-- Observable state of the shell: the run state, the watchpoint pool,
the printed output lines, and traces of external calls (arguments of
`cpu_exec`, number of `isa_reg_display` calls, addresses passed to
`vaddr_read`). -/
structure SdbState where
  nemuState : NemuState
  pool : WpPool
  out : List String
  execs : List Int
  regDisplays : Nat
  reads : List Nat
deriving DecidableEq, Repr

/-- Append one completed output line. -/
def SdbState.print (s : SdbState) (line : String) : SdbState :=
  { s with out := s.out ++ [line] }

/-- The shell state right after `init_sdb`. -/
def initState : SdbState :=
  { nemuState := .NEMU_RUNNING, pool := init_wp_pool, out := [],
    execs := [], regDisplays := 0, reads := [] }

/-- A one-byte `vaddr_read(a, 1)`: the memory oracle's value truncated to
a byte. -/
def byteAt (env : Env) (a : Nat) : Nat := env.mem a % 256

/-- Handlers receive the remaining whitespace-delimited tokens of the line
(each `strtok(NULL, " ")` call takes the next one) and the shell state;
`none` models undefined behavior (crash). The `Int` is the C return value
(negative requests loop termination). -/
abbrev Handler := List String → SdbState → Option (Int × SdbState)

/-- `cmd_c`: run the simulator with no instruction budget
(`cpu_exec(-1)`). -/
def cmd_c : Handler := fun _ s =>
  some (0, { s with execs := s.execs ++ [(-1 : Int)] })

/-- `cmd_q`: set the run state to `NEMU_QUIT` and return `-1`. -/
def cmd_q : Handler := fun _ s =>
  some (-1, { s with nemuState := .NEMU_QUIT })

/-- `cmd_si`: step `N` instructions; `n` starts at 1 and is overwritten
only when `sscanf("%d")` succeeds on the first argument token. -/
def cmd_si : Handler := fun args s =>
  let n : Int :=
    match args.head? with
    | none => 1
    | some a =>
      match parseDec a with
      | some m => m
      | none => 1
  some (0, { s with execs := s.execs ++ [n] })

/-- `cmd_info`: with no argument token the code calls
`strcmp(NULL, "w")` — a null-pointer dereference, modelled as `none`;
with `"w"` it prints a usage line; with `"r"` it calls
`isa_reg_display()`; with anything else it silently does nothing. -/
def cmd_info : Handler := fun args s =>
  match args.head? with
  | none => none
  | some a =>
    if a = "w" then some (0, s.print "info r: print the information of registers")
    else if a = "r" then some (0, { s with regDisplays := s.regDisplays + 1 })
    else some (0, s)

/-- One output row of the `cmd_x` loop starting at address `a < 2^32`:
`printf("0x%08x: ")` for the label, then four `printf("0x%02x ")` for the
bytes read at `a`, `a+1`, `a+2`, `a+3` (each address reduced modulo
`2^32` by the `vaddr_t` increment). -/
def xLine (env : Env) (a : Nat) : String :=
  "0x" ++ hex8 a ++ ": 0x" ++ hex2 (byteAt env a) ++ " 0x"
    ++ hex2 (byteAt env ((a + 1) % two32)) ++ " 0x"
    ++ hex2 (byteAt env (((a + 1) % two32 + 1) % two32)) ++ " 0x"
    ++ hex2 (byteAt env ((((a + 1) % two32 + 1) % two32 + 1) % two32)) ++ " "

/-- The memory-scan loop of `cmd_x`: `k` remaining rows, `a` the current
`vaddr_t` address (already reduced modulo `2^32`); each row prints the
address label and four individually read bytes, incrementing the address
once per byte. -/
def xloop (env : Env) : Nat → Nat → SdbState → SdbState
  | 0, _, s => s
  | k + 1, a, s =>
    let a1 := (a + 1) % two32
    let a2 := (a1 + 1) % two32
    let a3 := (a2 + 1) % two32
    let a4 := (a3 + 1) % two32
    xloop env k a4
      { s with out := s.out ++ [xLine env a], reads := s.reads ++ [a, a1, a2, a3] }

/-- `cmd_x`: with fewer than two argument tokens, print usage and touch no
memory. Otherwise parse `N` (decimal) and `ADDR` (hexadecimal): a failed
`N` conversion leaves `n` uninitialized and the loop bound reads it
(undefined behavior, `none`); with `n ≤ 0` the loop body never runs, so
the uninitialized-on-failure `addr` is never read; with `0 < n` a failed
`ADDR` conversion means the first `printf` reads uninitialized memory
(undefined behavior, `none`). -/
def cmd_x (env : Env) : Handler := fun args s =>
  match args.head?, args[1]? with
  | some a1, some a2 =>
    (match parseDec a1 with
     | none => none
     | some n =>
       if n ≤ 0 then some (0, s)
       else
         match parseHex a2 with
         | none => none
         | some addr => some (0, xloop env n.toNat (addr % two32) s))
  | _, _ => some (0, s.print "x N EXPR: scan memory")

/-- `cmd_p`: evaluate the first argument token; print the value with
`printf("%d")` on success, `"Invalid expression"` on failure. -/
def cmd_p (env : Env) : Handler := fun args s =>
  match args.head? with
  | none => some (0, s.print "p EXPR: print the value of expression")
  | some arg =>
    match env.eval arg with
    | some v => some (0, s.print (i32str (v % two32)))
    | none => some (0, s.print "Invalid expression")

/-- `cmd_w`: allocate a slot, copy the expression text into it, evaluate
the expression once; on failure print `"Invalid expression"` and release
the slot with `free_wp`. The pool-exhausted branch is modelled from the
spec (report and skip; `new_wp` itself is not in the visible sources). -/
def cmd_w (env : Env) : Handler := fun args s =>
  match args.head? with
  | none => some (0, s.print "w EXPR: set watchpoint")
  | some arg =>
    match new_wp s.pool with
    | none => some (0, s.print "watchpoint pool exhausted")
    | some (id, p1) =>
      let p2 := updateWp p1 id (fun w => { w with expr := arg })
      match env.eval arg with
      | some v =>
        some (0, { s with pool := updateWp p2 id (fun w => { w with value := v % two32 }) })
      | none =>
        some (0, { s.print "Invalid expression" with pool := free_wp id p2 })

/-- `cmd_d`: parse a watchpoint number and release it; a failed
`sscanf("%d")` leaves `n` uninitialized and it is then passed to
`free_wp_by_num` (undefined behavior, `none`). -/
def cmd_d : Handler := fun args s =>
  match args.head? with
  | none => some (0, s.print "d N: delete watchpoint")
  | some arg =>
    match parseDec arg with
    | none => none
    | some n => some (0, { s with pool := free_wp_by_num n s.pool })

/-- The name/description half of `cmd_table` (the `help` handler reads
only these two columns). -/
def cmdDescs : List (String × String) :=
  [("help", "Display information about all supported commands"),
   ("c", "Continue the execution of the program"),
   ("q", "Exit NEMU"),
   ("si", "step N commands"),
   ("info", "print the information of registers"),
   ("x", "scan memory"),
   ("p", "print the value of expression"),
   ("w", "set watchpoint"),
   ("d", "delete watchpoint")]

/-- `"Unknown command '<c>'"` (the quote character written as an escape). -/
def unknownMsg (c : String) : String :=
  "Unknown command \x27" ++ c ++ "\x27"

/-- `cmd_help`: with no argument list every table row; with an argument
describe the first exact name match or report it unknown. -/
def cmd_help : Handler := fun args s =>
  match args.head? with
  | none => some (0, { s with out := s.out ++ cmdDescs.map (fun e => e.1 ++ " - " ++ e.2) })
  | some a =>
    match cmdDescs.find? (fun e => e.1 == a) with
    | some e => some (0, s.print (e.1 ++ " - " ++ e.2))
    | none => some (0, s.print (unknownMsg a))

/-- The command registry, in source order: name and handler (descriptions
live in `cmdDescs`). -/
def cmd_table (env : Env) : List (String × Handler) :=
  [("help", cmd_help),
   ("c", cmd_c),
   ("q", cmd_q),
   ("si", cmd_si),
   ("info", cmd_info),
   ("x", cmd_x env),
   ("p", cmd_p env),
   ("w", cmd_w env),
   ("d", cmd_d)]

/-- Linear search of the registry: first exact name match wins. -/
def findCmd (name : String) : List (String × Handler) → Option Handler
  | [] => none
  | e :: rest => if e.1 = name then some e.2 else findCmd name rest

/-- Dispatch an already-tokenized line: an empty token list is silently
ignored; an unknown leading token is reported; otherwise the matching
handler runs and a negative return value maps to `Terminate`. -/
def dispatchTokens (env : Env) (toks : List String) (s : SdbState) : StepResult × SdbState :=
  match toks with
  | [] => (.Continue, s)
  | c :: args =>
    match findCmd c (cmd_table env) with
    | none => (.Continue, s.print (unknownMsg c))
    | some h =>
      match h args s with
      | none => (.Crash, s)
      | some (r, s1) => (if r < 0 then .Terminate else .Continue, s1)

/-- `strtok(str, " ")` splitting: maximal runs of non-space characters,
runs of spaces discarded (`cur` accumulates the current token reversed). -/
def splitSp : List Char → List Char → List String
  | cur, [] => if cur.isEmpty then [] else [String.mk cur.reverse]
  | cur, c :: cs =>
    if c = ' ' then
      if cur.isEmpty then splitSp [] cs
      else String.mk cur.reverse :: splitSp [] cs
    else splitSp (c :: cur) cs

/-- Tokenize one input line the way the mainloop and the handlers jointly
consume it through `strtok`. -/
def tokenize (line : String) : List String := splitSp [] line.toList

/-- Dispatch one raw input line. -/
def dispatch (env : Env) (line : String) (s : SdbState) : StepResult × SdbState :=
  dispatchTokens env (tokenize line) s

/-- The interactive mainloop over a list of input lines (the Line Source's
end-of-input is the end of the list): dispatch each line in turn, stopping
as soon as a dispatch does not yield `Continue`. -/
def sdb_mainloop (env : Env) : List String → SdbState → SdbState
  | [], s => s
  | line :: rest, s =>
    match dispatch env line s with
    | (StepResult.Continue, s1) => sdb_mainloop env rest s1
    | (_, s1) => s1

/-- A concrete environment whose evaluator always succeeds with 5 and
whose memory returns the address itself. -/
def envOk : Env := { eval := fun _ => some 5, mem := fun a => a }

/-- A concrete environment whose evaluator always fails. -/
def envBad : Env := { eval := fun _ => none, mem := fun _ => 0 }

/-! ## Helper lemmas -/

theorem findCmd_mem {name : String} {h : Handler} :
    ∀ {l : List (String × Handler)}, findCmd name l = some h → (name, h) ∈ l := by
  intro l
  induction l with
  | nil => intro hf; simp [findCmd] at hf
  | cons e rest ih =>
    intro hf
    by_cases he : e.1 = name
    · rw [findCmd, if_pos he] at hf
      cases hf
      have : (name, e.2) = e := by rw [← he]
      rw [this]
      exact List.mem_cons_self e rest
    · rw [findCmd, if_neg he] at hf
      exact List.mem_cons_of_mem _ (ih hf)

theorem updateWp_map_id {l : List WP} {id : Nat} {f : WP → WP}
    (h : ∀ w ∈ l, w.NO ≠ id) :
    l.map (fun w => if w.NO = id then f w else w) = l := by
  induction l with
  | nil => rfl
  | cons x xs ih =>
    simp only [List.map_cons, if_neg (h x (List.mem_cons_self x xs)),
      ih (fun w hw => h w (List.mem_cons_of_mem x hw))]

theorem updateWp_mapNO {p : WpPool} {id : Nat} {f : WP → WP}
    (hf : ∀ w, (f w).NO = w.NO) :
    (updateWp p id f).active.map WP.NO = p.active.map WP.NO := by
  simp only [updateWp]
  rw [List.map_map]
  refine List.map_congr_left (fun w _ => ?_)
  by_cases hw : w.NO = id
  · simp [Function.comp, hw, hf]
  · simp [Function.comp, hw]

theorem removeByNo_eq_none {n : Nat} {l : List WP} :
    removeByNo n l = none ↔ ∀ w ∈ l, w.NO ≠ n := by
  induction l with
  | nil => simp [removeByNo]
  | cons x xs ih =>
    simp only [removeByNo]
    by_cases hx : x.NO = n
    · rw [if_pos hx]
      constructor
      · intro hc; exact Option.noConfusion hc
      · intro hall; exact absurd hx (hall x (List.mem_cons_self x xs))
    · rw [if_neg hx]
      cases hrem : removeByNo n xs with
      | none =>
        constructor
        · intro _ w hw
          rcases List.mem_cons.mp hw with hw | hw
          · rw [hw]; exact hx
          · exact (ih.1 hrem) w hw
        · intro _; rfl
      | some pr =>
        obtain ⟨y, r⟩ := pr
        constructor
        · intro hc; exact Option.noConfusion hc
        · intro hall
          have h0 : removeByNo n xs = none :=
            ih.2 (fun w hw => hall w (List.mem_cons_of_mem x hw))
          rw [hrem] at h0
          exact Option.noConfusion h0

theorem removeByNo_some {n : Nat} :
    ∀ {l : List WP} {w : WP} {rest : List WP},
      removeByNo n l = some (w, rest) → w.NO = n ∧ List.Perm l (w :: rest) := by
  intro l
  induction l with
  | nil => intro w rest hf; simp [removeByNo] at hf
  | cons x xs ih =>
    intro w rest hf
    simp only [removeByNo] at hf
    by_cases hx : x.NO = n
    · rw [if_pos hx] at hf
      cases hf
      exact ⟨hx, List.Perm.refl _⟩
    · rw [if_neg hx] at hf
      cases hrem : removeByNo n xs with
      | none => rw [hrem] at hf; exact Option.noConfusion hf
      | some pr =>
        obtain ⟨y, r⟩ := pr
        rw [hrem] at hf
        obtain ⟨hno, hperm⟩ := ih hrem
        cases hf
        exact ⟨hno, (hperm.cons x).trans (List.Perm.swap _ x _)⟩

theorem free_wp_inv {id : Nat} {p : WpPool} (h : poolInv p) : poolInv (free_wp id p) := by
  unfold free_wp
  cases hrem : removeByNo id p.active with
  | none => exact h
  | some pr =>
    obtain ⟨w, rest⟩ := pr
    obtain ⟨-, hperm⟩ := removeByNo_some hrem
    unfold poolInv at h ⊢
    have hmap : List.Perm (p.active.map WP.NO) (w.NO :: rest.map WP.NO) := hperm.map WP.NO
    have h2 : List.Perm (p.freeIds ++ (w.NO :: rest.map WP.NO))
        (p.freeIds ++ p.active.map WP.NO) := List.Perm.append_left p.freeIds hmap.symm
    have h3 : List.Perm (p.freeIds ++ (w.NO :: rest.map WP.NO))
        (w.NO :: (p.freeIds ++ rest.map WP.NO)) := List.perm_middle
    show List.Perm (w.NO :: (p.freeIds ++ rest.map WP.NO)) (List.range NR_WP)
    exact h3.symm.trans (h2.trans h)

theorem free_wp_by_num_inv {n : Int} {p : WpPool} (h : poolInv p) :
    poolInv (free_wp_by_num n p) := by
  unfold free_wp_by_num
  by_cases hn : n < 0
  · rw [if_pos hn]; exact h
  · rw [if_neg hn]; exact free_wp_inv h

theorem new_wp_inv {p : WpPool} {id : Nat} {p1 : WpPool}
    (h : new_wp p = some (id, p1)) (hi : poolInv p) : poolInv p1 := by
  unfold new_wp at h
  cases hfi : p.freeIds with
  | nil => rw [hfi] at h; exact Option.noConfusion h
  | cons i rest =>
    rw [hfi] at h
    cases h
    unfold poolInv at hi ⊢
    rw [hfi] at hi
    show List.Perm (rest ++ (id :: p.active.map WP.NO)) (List.range NR_WP)
    exact List.perm_middle.trans hi

theorem updateWp_inv {p : WpPool} {id : Nat} {f : WP → WP}
    (hf : ∀ w, (f w).NO = w.NO) (h : poolInv p) : poolInv (updateWp p id f) := by
  unfold poolInv at h ⊢
  rw [updateWp_mapNO hf]
  exact h

theorem poolInv_nodup {p : WpPool} (h : poolInv p) :
    (p.freeIds ++ p.active.map WP.NO).Nodup :=
  h.symm.nodup (List.nodup_range _)

theorem xloop_pool (env : Env) : ∀ (k a : Nat) (s : SdbState), (xloop env k a s).pool = s.pool := by
  intro k
  induction k with
  | zero => intro a s; rfl
  | succ k ih => intro a s; rw [xloop]; rw [ih]

theorem cmd_help_spec {args : List String} {s : SdbState} {r : Int} {s1 : SdbState}
    (h : cmd_help args s = some (r, s1)) : r = 0 ∧ s1.pool = s.pool := by
  simp only [cmd_help] at h
  cases hhd : args.head? with
  | none =>
    rw [hhd] at h
    cases h
    exact ⟨rfl, rfl⟩
  | some a =>
    rw [hhd] at h
    simp only at h
    cases hfd : cmdDescs.find? (fun e => e.1 == a) with
    | none => rw [hfd] at h; cases h; exact ⟨rfl, rfl⟩
    | some e => rw [hfd] at h; cases h; exact ⟨rfl, rfl⟩

theorem cmd_c_spec {args : List String} {s : SdbState} {r : Int} {s1 : SdbState}
    (h : cmd_c args s = some (r, s1)) : r = 0 ∧ s1.pool = s.pool := by
  simp only [cmd_c] at h
  cases h
  exact ⟨rfl, rfl⟩

theorem cmd_si_spec {args : List String} {s : SdbState} {r : Int} {s1 : SdbState}
    (h : cmd_si args s = some (r, s1)) : r = 0 ∧ s1.pool = s.pool := by
  simp only [cmd_si] at h
  cases h
  exact ⟨rfl, rfl⟩

theorem cmd_info_spec {args : List String} {s : SdbState} {r : Int} {s1 : SdbState}
    (h : cmd_info args s = some (r, s1)) : r = 0 ∧ s1.pool = s.pool := by
  simp only [cmd_info] at h
  cases hhd : args.head? with
  | none => rw [hhd] at h; exact Option.noConfusion h
  | some a =>
    rw [hhd] at h
    simp only at h
    by_cases hw : a = "w"
    · rw [if_pos hw] at h; cases h; exact ⟨rfl, rfl⟩
    · rw [if_neg hw] at h
      by_cases hr : a = "r"
      · rw [if_pos hr] at h; cases h; exact ⟨rfl, rfl⟩
      · rw [if_neg hr] at h; cases h; exact ⟨rfl, rfl⟩

theorem cmd_x_spec {env : Env} {args : List String} {s : SdbState} {r : Int} {s1 : SdbState}
    (h : cmd_x env args s = some (r, s1)) : r = 0 ∧ s1.pool = s.pool := by
  simp only [cmd_x] at h
  cases hhd : args.head? with
  | none => rw [hhd] at h; simp only at h; cases h; exact ⟨rfl, rfl⟩
  | some a1 =>
    rw [hhd] at h
    cases hh2 : args[1]? with
    | none => rw [hh2] at h; simp only at h; cases h; exact ⟨rfl, rfl⟩
    | some a2 =>
      rw [hh2] at h
      simp only at h
      cases hpd : parseDec a1 with
      | none => rw [hpd] at h; exact Option.noConfusion h
      | some n =>
        rw [hpd] at h
        simp only at h
        by_cases hn : n ≤ 0
        · rw [if_pos hn] at h; cases h; exact ⟨rfl, rfl⟩
        · rw [if_neg hn] at h
          cases hph : parseHex a2 with
          | none => rw [hph] at h; exact Option.noConfusion h
          | some addr =>
            rw [hph] at h
            cases h
            exact ⟨rfl, xloop_pool env _ _ s⟩

theorem cmd_p_spec {env : Env} {args : List String} {s : SdbState} {r : Int} {s1 : SdbState}
    (h : cmd_p env args s = some (r, s1)) : r = 0 ∧ s1.pool = s.pool := by
  simp only [cmd_p] at h
  cases hhd : args.head? with
  | none => rw [hhd] at h; cases h; exact ⟨rfl, rfl⟩
  | some a =>
    rw [hhd] at h
    simp only at h
    cases hev : env.eval a with
    | none => rw [hev] at h; cases h; exact ⟨rfl, rfl⟩
    | some v => rw [hev] at h; cases h; exact ⟨rfl, rfl⟩

theorem cmd_w_spec {env : Env} {args : List String} {s : SdbState} {r : Int} {s1 : SdbState}
    (h : cmd_w env args s = some (r, s1)) :
    r = 0 ∧ (poolInv s.pool → poolInv s1.pool) := by
  simp only [cmd_w] at h
  cases hhd : args.head? with
  | none => rw [hhd] at h; cases h; exact ⟨rfl, fun hi => hi⟩
  | some arg =>
    rw [hhd] at h
    simp only at h
    cases hnw : new_wp s.pool with
    | none => rw [hnw] at h; cases h; exact ⟨rfl, fun hi => hi⟩
    | some pr =>
      obtain ⟨id, p1⟩ := pr
      rw [hnw] at h
      simp only at h
      cases hev : env.eval arg with
      | some v =>
        rw [hev] at h
        cases h
        refine ⟨rfl, fun hi => ?_⟩
        exact updateWp_inv (fun w => rfl) (updateWp_inv (fun w => rfl) (new_wp_inv hnw hi))
      | none =>
        rw [hev] at h
        cases h
        refine ⟨rfl, fun hi => ?_⟩
        exact free_wp_inv (updateWp_inv (fun w => rfl) (new_wp_inv hnw hi))

theorem cmd_d_spec {args : List String} {s : SdbState} {r : Int} {s1 : SdbState}
    (h : cmd_d args s = some (r, s1)) :
    r = 0 ∧ (poolInv s.pool → poolInv s1.pool) := by
  simp only [cmd_d] at h
  cases hhd : args.head? with
  | none => rw [hhd] at h; cases h; exact ⟨rfl, fun hi => hi⟩
  | some arg =>
    rw [hhd] at h
    simp only at h
    cases hpd : parseDec arg with
    | none => rw [hpd] at h; exact Option.noConfusion h
    | some n =>
      rw [hpd] at h
      cases h
      exact ⟨rfl, fun hi => free_wp_by_num_inv hi⟩

theorem cmd_q_spec {args : List String} {s : SdbState} {r : Int} {s1 : SdbState}
    (h : cmd_q args s = some (r, s1)) :
    r = -1 ∧ s1 = { s with nemuState := .NEMU_QUIT } := by
  simp only [cmd_q] at h
  cases h
  exact ⟨rfl, rfl⟩

theorem handler_spec {env : Env} {name : String} {h : Handler}
    (hmem : (name, h) ∈ cmd_table env) {args : List String} {s : SdbState}
    {r : Int} {s1 : SdbState} (hrun : h args s = some (r, s1)) :
    (r < 0 → name = "q") ∧ (poolInv s.pool → poolInv s1.pool) := by
  simp only [cmd_table, List.mem_cons, List.not_mem_nil, or_false, Prod.mk.injEq] at hmem
  rcases hmem with ⟨h1, h2⟩ | ⟨h1, h2⟩ | ⟨h1, h2⟩ | ⟨h1, h2⟩ | ⟨h1, h2⟩ | ⟨h1, h2⟩
    | ⟨h1, h2⟩ | ⟨h1, h2⟩ | ⟨h1, h2⟩ <;> subst h1 <;> subst h2
  · obtain ⟨hr, hp⟩ := cmd_help_spec hrun
    exact ⟨fun hneg => absurd hneg (by rw [hr]; omega), fun hi => hp ▸ hi⟩
  · obtain ⟨hr, hp⟩ := cmd_c_spec hrun
    exact ⟨fun hneg => absurd hneg (by rw [hr]; omega), fun hi => hp ▸ hi⟩
  · exact ⟨fun _ => rfl, fun hi => by rw [(cmd_q_spec hrun).2]; exact hi⟩
  · obtain ⟨hr, hp⟩ := cmd_si_spec hrun
    exact ⟨fun hneg => absurd hneg (by rw [hr]; omega), fun hi => hp ▸ hi⟩
  · obtain ⟨hr, hp⟩ := cmd_info_spec hrun
    exact ⟨fun hneg => absurd hneg (by rw [hr]; omega), fun hi => hp ▸ hi⟩
  · obtain ⟨hr, hp⟩ := cmd_x_spec hrun
    exact ⟨fun hneg => absurd hneg (by rw [hr]; omega), fun hi => hp ▸ hi⟩
  · obtain ⟨hr, hp⟩ := cmd_p_spec hrun
    exact ⟨fun hneg => absurd hneg (by rw [hr]; omega), fun hi => hp ▸ hi⟩
  · obtain ⟨hr, hp⟩ := cmd_w_spec hrun
    exact ⟨fun hneg => absurd hneg (by rw [hr]; omega), hp⟩
  · obtain ⟨hr, hp⟩ := cmd_d_spec hrun
    exact ⟨fun hneg => absurd hneg (by rw [hr]; omega), hp⟩

theorem dispatchTokens_inv (env : Env) (toks : List String) (s : SdbState)
    (hi : poolInv s.pool) : poolInv (dispatchTokens env toks s).2.pool := by
  cases toks with
  | nil => exact hi
  | cons c args =>
    cases hf : findCmd c (cmd_table env) with
    | none => simp only [dispatchTokens, hf]; exact hi
    | some h =>
      cases hrun : h args s with
      | none => simp only [dispatchTokens, hf, hrun]; exact hi
      | some pr =>
        obtain ⟨r, s1⟩ := pr
        simp only [dispatchTokens, hf, hrun]
        exact (handler_spec (findCmd_mem hf) hrun).2 hi

theorem dispatch_inv (env : Env) (line : String) (s : SdbState)
    (hi : poolInv s.pool) : poolInv (dispatch env line s).2.pool :=
  dispatchTokens_inv env (tokenize line) s hi

theorem sdb_mainloop_inv (env : Env) :
    ∀ (lines : List String) (s : SdbState),
      poolInv s.pool → poolInv (sdb_mainloop env lines s).pool := by
  intro lines
  induction lines with
  | nil => intro s hi; exact hi
  | cons line rest ih =>
    intro s hi
    have hd := dispatch_inv env line s hi
    rcases hds : dispatch env line s with ⟨res, s1⟩
    rw [hds] at hd
    cases res with
    | Continue => rw [sdb_mainloop, hds]; exact ih s1 hd
    | Terminate => rw [sdb_mainloop, hds]; exact hd
    | Crash => rw [sdb_mainloop, hds]; exact hd

theorem head_free_not_active {p : WpPool} {id : Nat} {rest : List Nat}
    (h1 : p.freeIds = id :: rest) (hinv : poolInv p) :
    ∀ w ∈ p.active, w.NO ≠ id := by
  have hnd := poolInv_nodup hinv
  rw [h1, List.cons_append, List.nodup_cons] at hnd
  intro w hw heq
  exact hnd.1 (List.mem_append_right rest (heq ▸ List.mem_map_of_mem WP.NO hw))

theorem cmd_w_fail {env : Env} {e : String} {args : List String} {s : SdbState}
    {id : Nat} {rest : List Nat}
    (h1 : s.pool.freeIds = id :: rest) (h2 : env.eval e = none)
    (hni : ∀ w ∈ s.pool.active, w.NO ≠ id) :
    cmd_w env (e :: args) s = some (0, s.print "Invalid expression") := by
  have hnw : new_wp s.pool =
      some (id, { freeIds := rest,
                  active := { NO := id, expr := "", value := 0 } :: s.pool.active }) := by
    simp [new_wp, h1]
  have hup : updateWp
      { freeIds := rest, active := { NO := id, expr := "", value := 0 } :: s.pool.active }
      id (fun w => { w with expr := e }) =
      { freeIds := rest, active := { NO := id, expr := e, value := 0 } :: s.pool.active } := by
    simp [updateWp, updateWp_map_id hni]
  have hfw : free_wp id
      { freeIds := rest, active := { NO := id, expr := e, value := 0 } :: s.pool.active } =
      { freeIds := id :: rest, active := s.pool.active } := by
    simp [free_wp, removeByNo]
  have hpool : ({ freeIds := id :: rest, active := s.pool.active } : WpPool) = s.pool := by
    rw [← h1]
  simp only [cmd_w, List.head?_cons, hnw, h2, hup, hfw, hpool]
  rfl

theorem cmd_w_ok {env : Env} {e : String} {args : List String} {s : SdbState}
    {id : Nat} {rest : List Nat} {v : Nat}
    (h1 : s.pool.freeIds = id :: rest) (h2 : env.eval e = some v)
    (hni : ∀ w ∈ s.pool.active, w.NO ≠ id) :
    cmd_w env (e :: args) s = some (0, { s with pool :=
      { freeIds := rest,
        active := { NO := id, expr := e, value := v % two32 } :: s.pool.active } }) := by
  have hnw : new_wp s.pool =
      some (id, { freeIds := rest,
                  active := { NO := id, expr := "", value := 0 } :: s.pool.active }) := by
    simp [new_wp, h1]
  have hup : updateWp
      { freeIds := rest, active := { NO := id, expr := "", value := 0 } :: s.pool.active }
      id (fun w => { w with expr := e }) =
      { freeIds := rest, active := { NO := id, expr := e, value := 0 } :: s.pool.active } := by
    simp [updateWp, updateWp_map_id hni]
  have hup2 : updateWp
      { freeIds := rest, active := { NO := id, expr := e, value := 0 } :: s.pool.active }
      id (fun w => { w with value := v % two32 }) =
      { freeIds := rest,
        active := { NO := id, expr := e, value := v % two32 } :: s.pool.active } := by
    simp [updateWp, updateWp_map_id hni]
  simp only [cmd_w, List.head?_cons, hnw, h2, hup, hup2]

theorem free_wp_by_num_head {id : Nat} {rest : List Nat} {ac : List WP}
    {e : String} {vv : Nat} :
    free_wp_by_num (Int.ofNat id)
      { freeIds := rest, active := { NO := id, expr := e, value := vv } :: ac } =
      { freeIds := id :: rest, active := ac } := by
  simp [free_wp_by_num, free_wp, removeByNo]

theorem free_wp_by_num_noop {n : Int} {p : WpPool}
    (h : ∀ w ∈ p.active, (w.NO : Int) ≠ n) : free_wp_by_num n p = p := by
  unfold free_wp_by_num
  by_cases hn : n < 0
  · rw [if_pos hn]
  · rw [if_neg hn]
    have hrem : removeByNo n.toNat p.active = none := by
      rw [removeByNo_eq_none]
      intro w hw heq
      exact h w hw (by omega)
    unfold free_wp
    rw [hrem]

theorem xloop_keeps (env : Env) :
    ∀ (k a : Nat) (s : SdbState),
      (xloop env k a s).nemuState = s.nemuState ∧ (xloop env k a s).execs = s.execs ∧
      (xloop env k a s).regDisplays = s.regDisplays := by
  intro k
  induction k with
  | zero => intro a s; exact ⟨rfl, rfl, rfl⟩
  | succ k ih => intro a s; rw [xloop]; exact ih _ _

theorem xloop_out (env : Env) :
    ∀ (k a : Nat) (s : SdbState), a < two32 →
      (xloop env k a s).out =
        s.out ++ (List.range k).map (fun i => xLine env ((a + 4 * i) % two32)) := by
  intro k
  induction k with
  | zero =>
    intro a s ha
    simp [xloop]
  | succ k ih =>
    intro a s ha
    have hpos : 0 < two32 := by simp [two32]
    have ha4 : ((((a + 1) % two32 + 1) % two32 + 1) % two32 + 1) % two32 = (a + 4) % two32 := by
      simp only [two32]
      omega
    have h0 : (a + 4 * 0) % two32 = a := by
      simp only [two32] at ha ⊢
      omega
    have htail : (List.range k).map (fun i => xLine env (((a + 4) % two32 + 4 * i) % two32))
        = (List.range k).map ((fun i => xLine env ((a + 4 * i) % two32)) ∘ Nat.succ) :=
      List.map_congr_left (fun i _ =>
        show xLine env (((a + 4) % two32 + 4 * i) % two32)
            = xLine env ((a + 4 * Nat.succ i) % two32) from
          congrArg (xLine env) (by simp only [two32] at ha ⊢; omega))
    simp only [xloop]
    rw [ha4, ih _ _ (Nat.mod_lt _ hpos)]
    rw [htail, List.range_succ_eq_map, List.map_cons, List.map_map]
    rw [h0, List.append_assoc, List.singleton_append]

theorem xloop_reads (env : Env) :
    ∀ (k a : Nat) (s : SdbState), a < two32 →
      (xloop env k a s).reads =
        s.reads ++ (List.range (4 * k)).map (fun j => (a + j) % two32) := by
  intro k
  induction k with
  | zero =>
    intro a s ha
    simp [xloop]
  | succ k ih =>
    intro a s ha
    have hpos : 0 < two32 := by simp [two32]
    have ha4 : ((((a + 1) % two32 + 1) % two32 + 1) % two32 + 1) % two32 = (a + 4) % two32 := by
      simp only [two32]
      omega
    have h44 : 4 * (k + 1) = 4 + 4 * k := by omega
    have hr4 : List.range 4 = [0, 1, 2, 3] := rfl
    have e0 : (a + 0) % two32 = a := by
      simp only [two32] at ha ⊢
      omega
    have e2 : (a + 2) % two32 = ((a + 1) % two32 + 1) % two32 := by
      simp only [two32]
      omega
    have e3 : (a + 3) % two32 = (((a + 1) % two32 + 1) % two32 + 1) % two32 := by
      simp only [two32]
      omega
    have htail : (List.range (4 * k)).map (fun j => ((a + 4) % two32 + j) % two32)
        = (List.range (4 * k)).map ((fun j => (a + j) % two32) ∘ fun x => 4 + x) :=
      List.map_congr_left (fun j _ =>
        show ((a + 4) % two32 + j) % two32 = (a + (4 + j)) % two32 from by
          simp only [two32] at ha ⊢
          omega)
    simp only [xloop]
    rw [ha4, ih _ _ (Nat.mod_lt _ hpos)]
    rw [htail, h44, List.range_add, List.map_append, List.map_map, hr4]
    rw [List.map_cons, List.map_cons, List.map_cons, List.map_cons, List.map_nil]
    rw [e0, e2, e3, List.append_assoc]

/-- Initially the whole pool is free: the partition invariant holds. -/
theorem poolInv_init : poolInv initState.pool := by
  show (initState.pool.freeIds ++ initState.pool.active.map WP.NO).Perm (List.range NR_WP)
  rw [show initState.pool.active.map WP.NO = [] from rfl, List.append_nil]
  exact List.Perm.refl _

/-- Dispatching a token list whose command resolves to a handler that
returns 0 yields `Continue` and the handler's state. -/
theorem dispatch_handler {env : Env} {c : String} {h : Handler} {args : List String}
    {s out : SdbState} (hf : findCmd c (cmd_table env) = some h)
    (hr : h args s = some (0, out)) :
    dispatchTokens env (c :: args) s = (StepResult.Continue, out) := by
  simp only [dispatchTokens, hf, hr]
  rfl

/-- C3: dispatching `q` yields `Terminate` and sets the run state to
`NEMU_QUIT`; `q` is the only registered command whose handler can return a
negative value (the `Terminate` sentinel); and as soon as a dispatched line
yields `Terminate`, the mainloop returns that line's state without reading
any of the remaining input lines. -/
theorem q_terminates_uniquely :
    (∀ (env : Env) (s : SdbState) (args : List String),
      dispatchTokens env ("q" :: args) s
        = (StepResult.Terminate, { s with nemuState := NemuState.NEMU_QUIT })) ∧
    (∀ (env : Env) (name : String) (h : Handler), (name, h) ∈ cmd_table env →
      ∀ (args : List String) (s : SdbState) (r : Int) (s1 : SdbState),
        h args s = some (r, s1) → r < 0 → name = "q") ∧
    (∀ (env : Env) (line : String) (rest : List String) (s : SdbState),
      (dispatch env line s).1 = StepResult.Terminate →
      sdb_mainloop env (line :: rest) s = (dispatch env line s).2) := by
  refine ⟨?_, ?_, ?_⟩
  · intro env s args
    rfl
  · intro env name h hmem args s r s1 hrun hneg
    exact (handler_spec hmem hrun).1 hneg
  · intro env line rest s hterm
    rcases hds : dispatch env line s with ⟨res, s1⟩
    rw [hds] at hterm
    simp only at hterm
    subst hterm
    rw [sdb_mainloop, hds]

/-- Witness for C3: dispatching the line `q` terminates, and the mainloop
on `["q", "help"]` stops before processing `help`. -/
theorem q_terminates_uniquely_witness :
    (dispatch envOk "q" initState).1 = StepResult.Terminate ∧
    sdb_mainloop envOk ["q", "help"] initState = (dispatch envOk "q" initState).2 :=
  ⟨by decide, q_terminates_uniquely.2.2 envOk "q" ["help"] initState (by decide)⟩

/-- C4 (code bug): `info` with no sub-argument reaches
`strcmp(NULL, "w")` — a null-pointer dereference that crashes the shell,
contradicting the spec's rule that no error is fatal. The model evaluates
the code at the failing input `info` and produces `Crash`. -/
theorem info_no_arg_crashes :
    (∀ (env : Env) (s : SdbState), dispatchTokens env ["info"] s = (StepResult.Crash, s)) ∧
    (∀ (env : Env) (s : SdbState), dispatch env "info" s = (StepResult.Crash, s)) := by
  constructor
  · intro env s; rfl
  · intro env s; rfl

/-- C8: `si` parses an optional count from its first argument token,
defaulting to 1 when the token is absent or unparsable, and requests
exactly that many instructions from `cpu_exec`; `si` with no argument
behaves identically to `si 1`. -/
theorem si_steps :
    (∀ (env : Env) (s : SdbState) (t : String) (rest : List String) (n : Int),
      parseDec t = some n →
      dispatchTokens env ("si" :: t :: rest) s
        = (StepResult.Continue, { s with execs := s.execs ++ [n] })) ∧
    (∀ (env : Env) (s : SdbState) (t : String) (rest : List String),
      parseDec t = none →
      dispatchTokens env ("si" :: t :: rest) s
        = (StepResult.Continue, { s with execs := s.execs ++ [1] })) ∧
    (∀ (env : Env) (s : SdbState),
      dispatchTokens env ["si"] s = dispatchTokens env ["si", "1"] s) := by
  refine ⟨?_, ?_, ?_⟩
  · intro env s t rest n hp
    refine dispatch_handler rfl ?_
    simp only [cmd_si, List.head?_cons, hp]
  · intro env s t rest hp
    refine dispatch_handler rfl ?_
    simp only [cmd_si, List.head?_cons, hp]
  · intro env s
    rfl

/-- Witness for C8: `si 5` requests exactly 5 instructions. -/
theorem si_steps_witness :
    parseDec "5" = some 5 ∧
    dispatchTokens envOk ["si", "5"] initState
      = (StepResult.Continue, { initState with execs := initState.execs ++ [5] }) :=
  ⟨by decide, si_steps.1 envOk initState "5" [] 5 (by decide)⟩

/-- All-space character lists produce no token under `strtok(..., " ")`. -/
theorem splitSp_spaces : ∀ cs : List Char, (∀ c ∈ cs, c = ' ') → splitSp [] cs = [] := by
  intro cs
  induction cs with
  | nil => intro _; rfl
  | cons c cs ih =>
    intro h
    have hc : c = ' ' := h c (List.mem_cons_self c cs)
    subst hc
    exact ih (fun x hx => h x (List.mem_cons_of_mem _ hx))

/-- C9 counterexample: a line holding a single tab character is whitespace
in the usual sense, yet the dispatcher does not silently ignore it — the
tab survives tokenization (the splitter only discards spaces) and the line
is reported as an unknown command. -/
theorem whitespace_tab_counterexample :
    (∀ c ∈ "\t".toList, c.isWhitespace) ∧
    dispatch envOk "\t" initState
      = (StepResult.Continue, initState.print (unknownMsg "\t")) ∧
    (dispatch envOk "\t" initState).2.out ≠ [] := by decide

/-- C9 (amended): a line consisting only of *space* characters produces no
token, so the dispatcher returns `Continue` with the state untouched — no
handler runs, nothing is printed, and the line is never reported unknown. -/
theorem blank_line_ignored (env : Env) (s : SdbState) (line : String)
    (h : ∀ c ∈ line.toList, c = ' ') :
    dispatch env line s = (StepResult.Continue, s) := by
  have htok : tokenize line = [] := splitSp_spaces line.toList h
  rw [dispatch, htok]
  rfl

/-- Witness for C9: the three-space line is silently ignored. -/
theorem blank_line_ignored_witness :
    (∀ c ∈ "   ".toList, c = ' ') ∧
    dispatch envOk "   " initState = (StepResult.Continue, initState) :=
  ⟨by decide, blank_line_ignored envOk initState "   " (by decide)⟩

/-- C10: `x N ADDR` with both arguments present and `N` parsing to a
non-positive integer runs the row loop zero times: nothing is printed, no
memory is read, and the state is returned unchanged (regardless of whether
`ADDR` even parses, since the loop body that would use it never runs). -/
theorem x_nonpositive_count (env : Env) (s : SdbState) (t1 t2 : String) (n : Int)
    (h1 : parseDec t1 = some n) (h2 : n ≤ 0) :
    dispatchTokens env ["x", t1, t2] s = (StepResult.Continue, s) := by
  refine dispatch_handler rfl ?_
  simp only [cmd_x, List.head?_cons, List.getElem?_cons_succ, List.getElem?_cons_zero, h1]
  rw [if_pos h2]

/-- Witness for C10: `x -7 zz` prints nothing and reads nothing. -/
theorem x_nonpositive_count_witness :
    parseDec "-7" = some (-7) ∧ ((-7 : Int) ≤ 0) ∧
    dispatchTokens envOk ["x", "-7", "zz"] initState = (StepResult.Continue, initState) :=
  ⟨by decide, by decide,
    x_nonpositive_count envOk initState "-7" "zz" (-7) (by decide) (by decide)⟩

/-- C1 counterexample: with a failing evaluator, `w zz` rolls the
allocation back (occupancy unchanged) but the reported text is
`"Invalid expression"` — the literal `"invalid expression"` demanded by
the claim never appears in the output. -/
theorem w_eval_fail_text_counterexample :
    (dispatchTokens envBad ["w", "zz"] initState).2.out = ["Invalid expression"] ∧
    ¬ ("invalid expression" ∈ (dispatchTokens envBad ["w", "zz"] initState).2.out) ∧
    occupancy (dispatchTokens envBad ["w", "zz"] initState).2.pool
      = occupancy initState.pool := by decide

/-- C1 (amended): on a `w EXPR` dispatch with a non-empty expression token,
a free slot available, and a failing evaluation, the allocated slot is
released before the handler returns: the pool is restored exactly (so
occupancy is unchanged), the dispatch continues, and the only output is
the line `"Invalid expression"` — no watchpoint id is exposed. -/
theorem w_eval_fail_rollback (env : Env) (s : SdbState) (e : String)
    (id : Nat) (rest : List Nat) (args : List String)
    (hfree : s.pool.freeIds = id :: rest) (hev : env.eval e = none)
    (hinv : poolInv s.pool) :
    dispatchTokens env ("w" :: e :: args) s
      = (StepResult.Continue, s.print "Invalid expression") ∧
    (dispatchTokens env ("w" :: e :: args) s).2.pool = s.pool ∧
    occupancy (dispatchTokens env ("w" :: e :: args) s).2.pool = occupancy s.pool ∧
    (dispatchTokens env ("w" :: e :: args) s).2.out
      = s.out ++ ["Invalid expression"] := by
  have hni := head_free_not_active hfree hinv
  have hw := @cmd_w_fail env e args s id rest hfree hev hni
  have hd : dispatchTokens env ("w" :: e :: args) s
      = (StepResult.Continue, s.print "Invalid expression") :=
    dispatch_handler rfl hw
  refine ⟨hd, ?_, ?_, ?_⟩ <;> (rw [hd]; rfl)

/-- Witness for C1: the rollback theorem applied to the initial state with
an always-failing evaluator. -/
theorem w_eval_fail_rollback_witness :
    initState.pool.freeIds = 0 :: (List.range 31).map (fun k => k + 1) ∧
    envBad.eval "zz" = none ∧
    dispatchTokens envBad ["w", "zz"] initState
      = (StepResult.Continue, initState.print "Invalid expression") :=
  ⟨by decide, rfl,
    (w_eval_fail_rollback envBad initState "zz" 0 ((List.range 31).map (fun k => k + 1)) []
      (by decide) rfl poolInv_init).1⟩

/-- C5 counterexample: `info z` (a sub-argument other than `r` and `w`)
prints nothing at all — no usage or help text — and performs no register
inspection, contradicting the claim that any other sub-argument prints
usage text. -/
theorem info_other_counterexample :
    (dispatchTokens envOk ["info", "z"] initState).2.out = [] ∧
    (dispatchTokens envOk ["info", "z"] initState).2.regDisplays = 0 ∧
    (dispatchTokens envOk ["info", "z"] initState).1 = StepResult.Continue := by decide

/-- C5 (amended): `info r` requests one formatted register dump;
`info w` prints the usage line and inspects nothing; `info` with any other
sub-argument prints nothing and inspects nothing. -/
theorem info_subcommands (env : Env) (s : SdbState) :
    dispatchTokens env ["info", "r"] s
      = (StepResult.Continue, { s with regDisplays := s.regDisplays + 1 }) ∧
    dispatchTokens env ["info", "w"] s
      = (StepResult.Continue, s.print "info r: print the information of registers") ∧
    (∀ a : String, a ≠ "w" → a ≠ "r" →
      dispatchTokens env ["info", a] s = (StepResult.Continue, s)) := by
  refine ⟨dispatch_handler rfl rfl, dispatch_handler rfl rfl, ?_⟩
  intro a hw hr
  refine dispatch_handler rfl ?_
  simp only [cmd_info, List.head?_cons, if_neg hw, if_neg hr]

/-- Witness for C5: the third branch applied to `info z`. -/
theorem info_subcommands_witness :
    ("z" : String) ≠ "w" ∧ ("z" : String) ≠ "r" ∧
    dispatchTokens envOk ["info", "z"] initState = (StepResult.Continue, initState) :=
  ⟨by decide, by decide,
    (info_subcommands envOk initState).2.2 "z" (by decide) (by decide)⟩

/-- C6 counterexample: with a failing evaluator, `p zz` prints the line
`"Invalid expression"`; the exact text `"invalid expression"` demanded by
the claim is never printed. -/
theorem p_fail_text_counterexample :
    (dispatchTokens envBad ["p", "zz"] initState).2.out = ["Invalid expression"] ∧
    ¬ ("invalid expression" ∈ (dispatchTokens envBad ["p", "zz"] initState).2.out) := by
  decide

/-- C6 (amended): `p EXPR` with a non-empty first token evaluates it; on
success the resulting word is printed (in `printf("%d")`'s signed 32-bit
decimal rendering) and nothing else changes; on failure exactly the line
`"Invalid expression"` is printed and nothing else changes. -/
theorem p_eval_print (env : Env) (s : SdbState) (e : String) (args : List String) :
    (env.eval e = none →
      dispatchTokens env ("p" :: e :: args) s
        = (StepResult.Continue, s.print "Invalid expression")) ∧
    (∀ v : Nat, env.eval e = some v →
      dispatchTokens env ("p" :: e :: args) s
        = (StepResult.Continue, s.print (i32str (v % two32)))) := by
  constructor
  · intro hev
    refine dispatch_handler rfl ?_
    simp only [cmd_p, List.head?_cons, hev]
  · intro v hev
    refine dispatch_handler rfl ?_
    simp only [cmd_p, List.head?_cons, hev]

/-- Witness for C6: a successful evaluation prints the value. -/
theorem p_eval_print_witness :
    envOk.eval "a0" = some 5 ∧
    dispatchTokens envOk ["p", "a0"] initState
      = (StepResult.Continue, initState.print (i32str (5 % two32))) :=
  ⟨rfl, (p_eval_print envOk initState "a0" []).2 5 rfl⟩

/-- C2: (1) the free list / active set partition invariant of the
Watchpoint Store is preserved by every sequence of input lines processed
by the mainloop; (2) releasing a number that matches no active watchpoint
is a safe no-op on the pool; (3) `w valid_expr` followed by `d <the
allocated id>` restores the pool exactly (occupancy returns to its
pre-`w` value), and a second `d <same id>` leaves the pool untouched and
the invariant intact. -/
theorem watchpoint_pool_safety :
    (∀ (env : Env) (lines : List String) (s : SdbState),
      poolInv s.pool → poolInv (sdb_mainloop env lines s).pool) ∧
    (∀ (n : Int) (p : WpPool),
      (∀ w ∈ p.active, (w.NO : Int) ≠ n) → free_wp_by_num n p = p) ∧
    (∀ (env : Env) (s : SdbState) (e t : String) (v : Nat) (id : Nat) (rest : List Nat),
      env.eval e = some v → s.pool.freeIds = id :: rest →
      parseDec t = some (Int.ofNat id) → poolInv s.pool →
      occupancy (dispatchTokens env ["d", t] (dispatchTokens env ["w", e] s).2).2.pool
          = occupancy s.pool ∧
      (dispatchTokens env ["d", t] (dispatchTokens env ["w", e] s).2).2.pool = s.pool ∧
      (dispatchTokens env ["d", t]
          (dispatchTokens env ["d", t] (dispatchTokens env ["w", e] s).2).2).2.pool
        = (dispatchTokens env ["d", t] (dispatchTokens env ["w", e] s).2).2.pool ∧
      poolInv (dispatchTokens env ["d", t]
          (dispatchTokens env ["d", t] (dispatchTokens env ["w", e] s).2).2).2.pool) := by
  refine ⟨sdb_mainloop_inv, fun n p h => free_wp_by_num_noop h, ?_⟩
  intro env s e t v id rest hev hfree hpd hinv
  have hni := head_free_not_active hfree hinv
  have hpool : ({ freeIds := id :: rest, active := s.pool.active } : WpPool) = s.pool := by
    rw [← hfree]
  have hd1 : dispatchTokens env ["w", e] s
      = (StepResult.Continue, { s with pool :=
          { freeIds := rest,
            active := { NO := id, expr := e, value := v % two32 } :: s.pool.active } }) :=
    dispatch_handler rfl (@cmd_w_ok env e [] s id rest v hfree hev hni)
  have hcd2 : cmd_d [t] { s with pool :=
      { freeIds := rest,
        active := { NO := id, expr := e, value := v % two32 } :: s.pool.active } }
      = some (0, s) := by
    simp only [cmd_d, List.head?_cons, hpd, free_wp_by_num_head, hpool]
  have hd2 : dispatchTokens env ["d", t] { s with pool :=
      { freeIds := rest,
        active := { NO := id, expr := e, value := v % two32 } :: s.pool.active } }
      = (StepResult.Continue, s) :=
    dispatch_handler rfl hcd2
  have hnoop : free_wp_by_num (Int.ofNat id) s.pool = s.pool :=
    free_wp_by_num_noop (fun w hw heq => hni w hw (by
      have h2 : (w.NO : Int) = (id : Int) := by rw [heq]; rfl
      exact_mod_cast h2))
  have hcd3 : cmd_d [t] s = some (0, s) := by
    simp only [cmd_d, List.head?_cons, hpd, hnoop]
  have hd3 : dispatchTokens env ["d", t] s = (StepResult.Continue, s) :=
    dispatch_handler rfl hcd3
  rw [hd1]
  dsimp only
  rw [hd2]
  dsimp only
  rw [hd3]
  exact ⟨rfl, rfl, rfl, hinv⟩

/-- Witness for C2: the allocate/release/release-again scenario run from
the initial pool with a successful evaluator, watchpoint id 0. -/
theorem watchpoint_pool_safety_witness :
    envOk.eval "a0" = some 5 ∧ parseDec "0" = some (Int.ofNat 0) ∧
    initState.pool.freeIds = 0 :: (List.range 31).map (fun k => k + 1) ∧
    occupancy (dispatchTokens envOk ["d", "0"]
        (dispatchTokens envOk ["w", "a0"] initState).2).2.pool
      = occupancy initState.pool ∧
    (dispatchTokens envOk ["d", "0"]
        (dispatchTokens envOk ["w", "a0"] initState).2).2.pool = initState.pool := by
  have h := watchpoint_pool_safety.2.2 envOk initState "a0" "0" 5 0
    ((List.range 31).map (fun k => k + 1)) rfl (by decide) (by decide) poolInv_init
  exact ⟨rfl, by decide, by decide, h.1, h.2.1⟩

/-- C7: `x N ADDR` with both arguments present, `N` parsing to a positive
count and `ADDR` parsing as hexadecimal, emits exactly `N` output rows —
row `i` labelled with address `ADDR + 4·i` (modulo `2^32`) and showing the
4 bytes read individually at consecutive addresses — and issues exactly
`4·N` byte reads at `ADDR, ADDR+1, …` (modulo `2^32`), touching nothing
else; with fewer than two arguments only the usage line is printed and no
memory is read. -/
theorem x_scan (env : Env) (s : SdbState) (t1 t2 : String) (n : Int) (addr : Nat)
    (h1 : parseDec t1 = some n) (hp : 0 < n) (h2 : parseHex t2 = some addr) :
    ((dispatchTokens env ["x", t1, t2] s).1 = StepResult.Continue ∧
     (dispatchTokens env ["x", t1, t2] s).2.out
       = s.out ++ (List.range n.toNat).map (fun i => xLine env ((addr + 4 * i) % two32)) ∧
     (dispatchTokens env ["x", t1, t2] s).2.reads
       = s.reads ++ (List.range (4 * n.toNat)).map (fun j => (addr + j) % two32) ∧
     (dispatchTokens env ["x", t1, t2] s).2.pool = s.pool ∧
     (dispatchTokens env ["x", t1, t2] s).2.execs = s.execs) ∧
    (∀ t : String, dispatchTokens env ["x", t] s
       = (StepResult.Continue, s.print "x N EXPR: scan memory")) ∧
    dispatchTokens env ["x"] s = (StepResult.Continue, s.print "x N EXPR: scan memory") := by
  have hx : cmd_x env [t1, t2] s = some (0, xloop env n.toNat (addr % two32) s) := by
    simp only [cmd_x, List.head?_cons, List.getElem?_cons_succ, List.getElem?_cons_zero, h1]
    rw [if_neg (show ¬ n ≤ 0 by omega)]
    simp only [h2]
  have hd : dispatchTokens env ["x", t1, t2] s
      = (StepResult.Continue, xloop env n.toNat (addr % two32) s) :=
    dispatch_handler rfl hx
  have hlt : addr % two32 < two32 := Nat.mod_lt _ (by simp [two32])
  refine ⟨⟨?_, ?_, ?_, ?_, ?_⟩, ?_, ?_⟩
  · rw [hd]
  · rw [hd]
    dsimp only
    rw [xloop_out env n.toNat (addr % two32) s hlt]
    have hmap : (List.range n.toNat).map (fun i => xLine env ((addr % two32 + 4 * i) % two32))
        = (List.range n.toNat).map (fun i => xLine env ((addr + 4 * i) % two32)) :=
      List.map_congr_left (fun i _ =>
        congrArg (xLine env) (by simp only [two32]; omega))
    rw [hmap]
  · rw [hd]
    dsimp only
    rw [xloop_reads env n.toNat (addr % two32) s hlt]
    have hmap : (List.range (4 * n.toNat)).map (fun j => (addr % two32 + j) % two32)
        = (List.range (4 * n.toNat)).map (fun j => (addr + j) % two32) :=
      List.map_congr_left (fun j _ => by simp only [two32]; omega)
    rw [hmap]
  · rw [hd]
    dsimp only
    exact xloop_pool env n.toNat (addr % two32) s
  · rw [hd]
    dsimp only
    exact (xloop_keeps env n.toNat (addr % two32) s).2.1
  · intro t
    exact dispatch_handler rfl rfl
  · exact dispatch_handler rfl rfl

/-- Witness for C7: `x 2 0x1000` with byte memory `mem a = a` prints
exactly 2 rows of 4 bytes each and performs 8 consecutive byte reads
starting at `0x1000`. -/
theorem x_scan_witness :
    parseDec "2" = some 2 ∧ ((0 : Int) < 2) ∧ parseHex "0x1000" = some 4096 ∧
    (dispatchTokens envOk ["x", "2", "0x1000"] initState).2.out
      = ["0x00001000: 0x00 0x01 0x02 0x03 ", "0x00001004: 0x04 0x05 0x06 0x07 "] ∧
    (dispatchTokens envOk ["x", "2", "0x1000"] initState).2.reads
      = [4096, 4097, 4098, 4099, 4100, 4101, 4102, 4103] := by
  have h := (x_scan envOk initState "2" "0x1000" 2 4096
    (by decide) (by decide) (by decide)).1
  refine ⟨by decide, by decide, by decide, ?_, ?_⟩
  · rw [h.2.1]
    decide
  · rw [h.2.2.1]
    decide
